import Mathlib

/-!
Verification of the streaming columnar data-quality engine of the
Intrusion_Detection_System repository.

The engine lives in `Check_Dominance_Impossible_values.py`,
`Check_Handle_Dominance_Impossible_INF_values.py`,
`Check_For_Impossible_Values_Range.py`, `Checks_And_Deletes_30%_Infinite_Values.py`,
`Handle_INF_Values.py` and `Constant_LowVarience_Dominance_INF_Impossible.py`.
Files are read with `pandas.read_csv` in bounded chunks; per-column statistics
are accumulated across chunks; threshold decisions (dominance buckets, inf-ratio
column pruning, rule-based row validation, median imputation) are computed from
the accumulated state; a confirmed second pass rewrites the file.

A cell is modelled after the classification `pd.to_numeric(errors="coerce")`
induces on a raw CSV field: missing (`null`), a finite numeric value (`num`),
positive or negative infinity (`pinf`/`ninf`, the parses of "inf"/"-inf"), or
non-numeric text (`text`).  A coerced value (`NumVal`) is NaN, an infinity, or a
finite rational; comparisons on `NumVal` follow IEEE semantics as pandas does
(every comparison with NaN is false).
-/

inductive Cell
  | null
  | num (q : ℚ)
  | pinf
  | ninf
  | text (s : String)
deriving DecidableEq, Repr

inductive NumVal
  | nan
  | pinf
  | ninf
  | fin (q : ℚ)
deriving DecidableEq, Repr

/-- `pd.to_numeric(errors="coerce")` on one cell: missing and non-numeric text
coerce to NaN, numeric text to its value, "inf"/"-inf" to the infinities. -/
def toNumeric : Cell → NumVal
  | Cell.null => NumVal.nan
  | Cell.text _ => NumVal.nan
  | Cell.num q => NumVal.fin q
  | Cell.pinf => NumVal.pinf
  | Cell.ninf => NumVal.ninf

/-- `np.isinf` after coercion: true exactly on the two infinities.  NaN (and in
particular a missing cell) is not infinite. -/
def isInfCell (c : Cell) : Bool :=
  match toNumeric c with
  | NumVal.pinf => true
  | NumVal.ninf => true
  | _ => false

/-- A missing cell, the ones `Series.dropna` removes. -/
def isNullCell (c : Cell) : Bool :=
  match c with
  | Cell.null => true
  | _ => false

/-- `v < q` with IEEE semantics: NaN compares false, -inf is below everything,
+inf is not below any finite bound. -/
def ltNum (v : NumVal) (q : ℚ) : Bool :=
  match v with
  | NumVal.fin x => decide (x < q)
  | NumVal.ninf => true
  | _ => false

/-- `v > q` with IEEE semantics. -/
def gtNum (v : NumVal) (q : ℚ) : Bool :=
  match v with
  | NumVal.fin x => decide (q < x)
  | NumVal.pinf => true
  | _ => false

/-- `Series.between(lo, hi, inclusive="both")` on one coerced value: true only
for a finite value inside the closed interval; NaN and the infinities are not
between any finite bounds. -/
def betweenNum (v : NumVal) (lo hi : ℚ) : Bool :=
  match v with
  | NumVal.fin x => decide (lo ≤ x) && decide (x ≤ hi)
  | _ => false

/-!
## Column Accumulator

Per-column pass-1 state.  It packages the counters the source maintains while
streaming chunks: `col_counters[col]` / `total_counts[col]` of
`generate_dominance_report` (value-frequency counts and non-null total) and
`inf_counts[col]` / `total_rows` of `run_inf_column_removal`; the null count is
the complement `rows_seen - non-null`.  All counters are additive, which is
what the chunk loops rely on (`Counter.update`, `+=`, `Series.add`).
-/

structure ColAcc where
  valueCounts : Multiset Cell
  nonNullTotal : Nat
  nullCount : Nat
  infCount : Nat
  rowsSeen : Nat
deriving DecidableEq

def ColAcc.empty : ColAcc := ⟨0, 0, 0, 0, 0⟩

/-- Absorb one cell into the accumulator: a missing cell only bumps the null
and row counters (`dropna` removes it from the value counts); any other cell is
counted under its literal form and classified for the infinity counter. -/
def absorb (a : ColAcc) (c : Cell) : ColAcc :=
  if isNullCell c then
    { a with nullCount := a.nullCount + 1, rowsSeen := a.rowsSeen + 1 }
  else
    { a with valueCounts := c ::ₘ a.valueCounts,
             nonNullTotal := a.nonNullTotal + 1,
             infCount := a.infCount + (if isInfCell c then 1 else 0),
             rowsSeen := a.rowsSeen + 1 }

/-- Pass-1 accumulation of a column given as its list of cells in row order. -/
def accumulate (xs : List Cell) : ColAcc := xs.foldl absorb ColAcc.empty

/-- Combine the accumulators of two disjoint row ranges: every counter adds. -/
def mergeAcc (a b : ColAcc) : ColAcc :=
  ⟨a.valueCounts + b.valueCounts, a.nonNullTotal + b.nonNullTotal,
   a.nullCount + b.nullCount, a.infCount + b.infCount, a.rowsSeen + b.rowsSeen⟩

/-- Fold a chunk-by-chunk sequence of accumulators into one, the way the
pass-1 loops fold per-chunk statistics into the running totals. -/
def mergeAll (l : List ColAcc) : ColAcc := l.foldl mergeAcc ColAcc.empty

/-!
## 'inf' column pruning (pass 1 decision)

`run_inf_column_removal`: per chunk, `total_rows += len(chunk)` and
`inf_counts = inf_counts.add(chunk.apply(to_numeric, coerce).pipe(np.isinf).sum())`;
then `inf_percentages = inf_counts / total_rows` and a column is deleted when
`inf_percentages > INF_THRESHOLD` (default 0.30), strictly.
-/

/-- Total row count over the chunked file, `total_rows` in the source. -/
def totalRowsOf (chunks : List (List Cell)) : Nat := (chunks.map List.length).sum

/-- Chunk-summed infinity count for one column, `inf_counts[col]`. -/
def infCountsOf (chunks : List (List Cell)) : Nat :=
  (chunks.map (fun c => (accumulate c).infCount)).sum

/-- The pruning decision for one column presented as its chunk sequence:
`inf_counts / total_rows > threshold`. -/
def infFlag (chunks : List (List Cell)) (threshold : ℚ) : Bool :=
  decide ((infCountsOf chunks : ℚ) / (totalRowsOf chunks : ℚ) > threshold)

/-!
## Row validation rules (`validate_data_quality`)

Each rule coerces a column with `pd.to_numeric(errors="coerce")` and builds an
invalid-row mask.  `Check_Dominance_Impossible_values.py` uses
`numeric_col < 0` for never-negative columns and `~numeric_col.between(lo, hi)`
for ports and percentages; `Check_For_Impossible_Values_Range.py` instead uses
`(numeric_col < lo) | (numeric_col > hi)` for ports and percentages.
-/

/-- Never-negative rule mask (both variants): `numeric_col < 0`. -/
def negative_mask (c : Cell) : Bool := ltNum (toNumeric c) 0

/-- Port mask of `Check_Dominance_Impossible_values.py`:
`~numeric_col.between(0, 65535, inclusive="both")`. -/
def port_mask_between (c : Cell) : Bool := ! betweenNum (toNumeric c) 0 65535

/-- Percentage mask of `Check_Dominance_Impossible_values.py`:
`~numeric_col.between(0, 100, inclusive="both")`. -/
def percentage_mask_between (c : Cell) : Bool := ! betweenNum (toNumeric c) 0 100

/-- Port mask of `Check_For_Impossible_Values_Range.py`:
`(numeric_col < 0) | (numeric_col > 65535)`. -/
def port_mask_range (c : Cell) : Bool :=
  ltNum (toNumeric c) 0 || gtNum (toNumeric c) 65535

/-- Percentage mask of `Check_For_Impossible_Values_Range.py`:
`(numeric_col < 0) | (numeric_col > 100)`. -/
def percentage_mask_range (c : Cell) : Bool :=
  ltNum (toNumeric c) 0 || gtNum (toNumeric c) 100

/-- The absolute row indices a rule records for a column,
`list(df[invalid_mask].index)`. -/
def invalid_rows (col : List Cell) (mask : Cell → Bool) : List Nat :=
  (col.enum.filter (fun p => mask p.2)).map Prod.fst

/-- Modelled from the spec for the refinement comparison of claim C7: "a cell
is valid if and only if it parses to an integer in [0, 65535]". -/
def port_parses_integer_in_range (c : Cell) : Bool :=
  match toNumeric c with
  | NumVal.fin q => decide (q.den = 1) && decide (0 ≤ q) && decide (q ≤ 65535)
  | _ => false

/-- The fractional port value 80.5 (the coercion of the text "80.5"), written
as an explicit reduced fraction. -/
def qEightyAndHalf : ℚ := ⟨161, 2, by decide, by norm_num⟩

/-!
## Dominance report (`generate_dominance_report`)

Ratio of the most common value over the non-null total, bucketed by the first
matching entry of `DOMINANCE_RANGES` (`low <= ratio < high`, then `break`).
-/

def DOMINANCE_RANGES : List (ℚ × ℚ × String) :=
  [(95/100, 101/100, "95-100%"), (90/100, 95/100, "90-95%"),
   (80/100, 90/100, "80-90%"), (70/100, 80/100, "70-80%"),
   (60/100, 70/100, "60-70%"), (50/100, 60/100, "50-60%")]

/-- `counts.most_common(1)[0][1]`: the largest frequency in the counter. -/
def maxValueCount (m : Multiset Cell) : Nat := m.toFinset.sup (fun v => m.count v)

/-- The dominance ratio of a finalized accumulator:
most common count over non-null total. -/
def dominanceRatioOf (a : ColAcc) : ℚ :=
  (maxValueCount a.valueCounts : ℚ) / (a.nonNullTotal : ℚ)

/-- The bucket the report assigns: first range with `low <= ratio < high`. -/
def bucketOf (r : ℚ) : Option String :=
  (DOMINANCE_RANGES.find? (fun t => decide (t.1 ≤ r) && decide (r < t.2.1))).map
    (fun t => t.2.2)

/-- All ranges whose half-open interval contains the ratio (used to state that
the six ranges are pairwise disjoint on any ratio). -/
def matchingRanges (r : ℚ) : List (ℚ × ℚ × String) :=
  DOMINANCE_RANGES.filter (fun t => decide (t.1 ≤ r) && decide (r < t.2.1))

/-!
## Median imputation (`run_inf_imputation`)

Phase 1 computes, for every column holding an infinity,
`to_numeric(series, coerce).replace([inf, -inf], nan).median()` — the pandas
median of the finite numeric subset (median skips NaN; for an even count it
averages the two middle values; the median of an all-NaN series is NaN).
Phase 2 rewrites each chunk with
`chunk[col] = to_numeric(chunk[col], coerce).replace([inf, -inf], median_val)`.
-/

/-- The finite numeric subset of a column (what remains after coercion drops
text and nulls to NaN and the infinities are replaced by NaN). -/
def finiteVals (xs : List Cell) : List ℚ :=
  xs.filterMap (fun c =>
    match toNumeric c with
    | NumVal.fin q => some q
    | _ => none)

def insertSorted (q : ℚ) : List ℚ → List ℚ
  | [] => [q]
  | x :: xs => if q ≤ x then q :: x :: xs else x :: insertSorted q xs

def sortQ (xs : List ℚ) : List ℚ := xs.foldr insertSorted []

/-- The pandas median of a list of finite values: middle of the sorted list,
or the average of the two middles for an even count; undefined when empty. -/
def listMedian (xs : List ℚ) : Option ℚ :=
  let s := sortQ xs
  if s.length = 0 then none
  else if s.length % 2 = 1 then some (s.getD (s.length / 2) 0)
  else some ((s.getD (s.length / 2 - 1) 0 + s.getD (s.length / 2) 0) / 2)

/-- `median_val` for a column: the median of its finite subset, NaN when the
column has no finite numeric value (pandas median of an all-NaN series). -/
def medianNum (col : List Cell) : NumVal :=
  match listMedian (finiteVals col) with
  | some m => NumVal.fin m
  | none => NumVal.nan

/-- Phase 2 of `run_inf_imputation` on one column: coerce every cell and
replace the infinities by the column's `median_val`. -/
def run_inf_imputation_col (col : List Cell) : List NumVal :=
  col.map (fun c =>
    match toNumeric c with
    | NumVal.pinf => medianNum col
    | NumVal.ninf => medianNum col
    | v => v)

/-!
## Rewrite pass (pass 2 of `run_inf_column_removal`)

`chunk.drop(columns=columns_to_delete, inplace=True, errors="ignore")`, then
the first chunk is written with `mode="w"` (header included), every later one
with `mode="a", header=False`.
-/

structure Chunk where
  header : List String
  rows : List (List Cell)
deriving DecidableEq, Repr

/-- A line of the produced CSV: the single header line or one data row. -/
inductive CsvLine
  | headerLine (h : List String)
  | rowLine (r : List Cell)
deriving DecidableEq, Repr

def isHeaderLine : CsvLine → Bool
  | CsvLine.headerLine _ => true
  | _ => false

/-- The column positions of a chunk that survive the drop, with their names. -/
def keptCols (flagged : List String) (header : List String) : List (Nat × String) :=
  header.enum.filter (fun p => ! decide (p.2 ∈ flagged))

/-- `chunk.drop(columns=flagged, errors="ignore")`: remove every column whose
name is flagged; a flagged name that is absent simply matches nothing. -/
def dropChunkCols (flagged : List String) (ch : Chunk) : Chunk :=
  { header := (keptCols flagged ch.header).map Prod.snd,
    rows := ch.rows.map (fun r =>
      (keptCols flagged ch.header).map (fun p => r.getD p.1 Cell.null)) }

/-- `DataFrame.drop(columns=labels, errors=...)`: with `errors="raise"` (the
pandas default) a label absent from the header raises `KeyError`; the source
always passes `errors="ignore"`, which never fails. -/
def drop_columns (labels : List String) (ignoreAbsent : Bool) (ch : Chunk) :
    Except String Chunk :=
  if ignoreAbsent = false ∧ labels.any (fun l => ! decide (l ∈ ch.header)) then
    Except.error "KeyError"
  else Except.ok (dropChunkCols labels ch)

/-- The pass-2 write loop with its `is_first_chunk` flag: the first chunk
contributes the header line and opens the file, later chunks append rows only. -/
def writeLoop (flagged : List String) : List Chunk → Bool → List CsvLine
  | [], _ => []
  | ch :: rest, isFirst =>
      (if isFirst then
        CsvLine.headerLine (dropChunkCols flagged ch).header ::
          (dropChunkCols flagged ch).rows.map CsvLine.rowLine
      else (dropChunkCols flagged ch).rows.map CsvLine.rowLine)
        ++ writeLoop flagged rest false

/-- The whole rewritten output file. -/
def writePass (flagged : List String) (chunks : List Chunk) : List CsvLine :=
  writeLoop flagged chunks true

/-!
## Engine outcome (`run_inf_column_removal` control flow)

After pass 1 the procedure either reports "No action needed" (empty decision
set), or prints the decision set and asks
`input("...").lower() in ['yes', 'y']`; only on confirmation does pass 2 run
and create the output file.
-/

/-- ASCII lowercase of the typed answer, `input(...).lower()`. -/
def lowerStr (s : String) : String := String.mk (s.data.map Char.toLower)

/-- `user_input in ['yes', 'y']` after lowering. -/
def answer_yes (s : String) : Bool := lowerStr s == "yes" || lowerStr s == "y"

/-- Count of infinite cells of column `i` over the chunked rows (pass 1 of
`run_inf_column_removal`, summed chunk by chunk). -/
def infCountAt (chunks : List (List (List Cell))) (i : Nat) : Nat :=
  (chunks.map (fun rows => rows.countP (fun r => isInfCell (r.getD i Cell.null)))).sum

/-- Rows of the whole chunked file. -/
def totalRowsTab (chunks : List (List (List Cell))) : Nat :=
  (chunks.map List.length).sum

/-- `columns_to_delete`: names (in header order) whose inf percentage is
strictly above the threshold. -/
def columns_to_delete (header : List String) (chunks : List (List (List Cell)))
    (threshold : ℚ) : List String :=
  (header.enum.filter (fun p =>
      decide ((infCountAt chunks p.1 : ℚ) / (totalRowsTab chunks : ℚ) > threshold))).map
    Prod.snd

/-- The three outcomes of `run_inf_column_removal`: nothing to do, decisions
computed but declined, or decisions applied producing an output file. -/
inductive RemovalOutcome
  | noAction
  | cancelled (cols : List String)
  | applied (cols : List String) (outFile : List CsvLine)
deriving DecidableEq, Repr

/-- `run_inf_column_removal`: pass-1 decision, then user confirmation, then
(only if confirmed) the pass-2 rewrite. -/
def run_inf_column_removal (header : List String)
    (chunks : List (List (List Cell))) (threshold : ℚ) (userInput : String) :
    RemovalOutcome :=
  let cols := columns_to_delete header chunks threshold
  if cols = [] then RemovalOutcome.noAction
  else if answer_yes userInput then
    RemovalOutcome.applied cols
      (writePass cols (chunks.map (fun rows => Chunk.mk header rows)))
  else RemovalOutcome.cancelled cols

/-- Whether an outcome carries a written output file. -/
def outputWritten : RemovalOutcome → Bool
  | RemovalOutcome.applied _ _ => true
  | _ => false

/-!
## Label normalization (`run_data_validation` / `validate_data_quality`)

Before any rule runs: `if 'Label' in df.columns and 'label' not in df.columns:
df = df.rename(columns={'Label': 'label'})`, then
`if 'label' not in df.columns: df['label'] = 'Unknown'`.  Violation reports
then read `df.loc[mask, 'label'].value_counts()`.
-/

structure DF where
  cols : List (String × List String)
  nrows : Nat
deriving DecidableEq, Repr

def DF.keys (df : DF) : List String := df.cols.map Prod.fst

def lookupCol (cols : List (String × List String)) (name : String) :
    Option (List String) :=
  (cols.find? (fun p => p.1 == name)).map Prod.snd

/-- `df.rename(columns={'Label': 'label'})`. -/
def rename_Label (df : DF) : DF :=
  { df with cols := df.cols.map (fun p =>
      if p.1 == "Label" then ("label", p.2) else p) }

/-- The label-normalization prologue of the validators. -/
def ensure_label (df : DF) : DF :=
  let df1 := if "Label" ∈ df.keys ∧ ¬ "label" ∈ df.keys then rename_Label df else df
  if ¬ "label" ∈ df1.keys then
    { df1 with cols := df1.cols ++ [("label", List.replicate df1.nrows "Unknown")] }
  else df1

/-- The label values selected by a violation mask,
`df.loc[mask, 'label']` — the multiset that `value_counts()` groups. -/
def breakdown_labels (labels : List String) (mask : List Bool) : List String :=
  ((labels.zip mask).filter Prod.snd).map Prod.fst

/-!
# Theorems
-/

theorem mergeAcc_empty_right (a : ColAcc) : mergeAcc a ColAcc.empty = a := by
  cases a
  simp [mergeAcc, ColAcc.empty]

theorem mergeAcc_empty_left (a : ColAcc) : mergeAcc ColAcc.empty a = a := by
  cases a
  simp [mergeAcc, ColAcc.empty]

theorem mergeAcc_comm (a b : ColAcc) : mergeAcc a b = mergeAcc b a := by
  cases a
  cases b
  simp only [mergeAcc, ColAcc.mk.injEq]
  refine ⟨add_comm _ _, Nat.add_comm _ _, Nat.add_comm _ _, Nat.add_comm _ _,
    Nat.add_comm _ _⟩

theorem mergeAcc_assoc (a b c : ColAcc) :
    mergeAcc (mergeAcc a b) c = mergeAcc a (mergeAcc b c) := by
  cases a
  cases b
  cases c
  simp only [mergeAcc, ColAcc.mk.injEq]
  refine ⟨add_assoc _ _ _, Nat.add_assoc _ _ _, Nat.add_assoc _ _ _,
    Nat.add_assoc _ _ _, Nat.add_assoc _ _ _⟩

theorem absorb_as_merge (a : ColAcc) (c : Cell) :
    absorb a c = mergeAcc a (absorb ColAcc.empty c) := by
  cases a
  by_cases h : isNullCell c = true
  · simp [absorb, h, mergeAcc, ColAcc.empty]
  · simp [absorb, h, mergeAcc, ColAcc.empty]
    rw [add_comm, Multiset.singleton_add]

theorem foldl_absorb_merge (xs : List Cell) (a : ColAcc) :
    xs.foldl absorb a = mergeAcc a (accumulate xs) := by
  induction xs generalizing a with
  | nil => simp [accumulate, mergeAcc_empty_right]
  | cons c xs ih =>
      have h1 : accumulate (c :: xs) = mergeAcc (absorb ColAcc.empty c) (accumulate xs) := by
        show (c :: xs).foldl absorb ColAcc.empty = _
        rw [List.foldl_cons, ih (absorb ColAcc.empty c)]
      rw [List.foldl_cons, ih (absorb a c), h1, absorb_as_merge a c, mergeAcc_assoc]

theorem accumulate_append (xs ys : List Cell) :
    accumulate (xs ++ ys) = mergeAcc (accumulate xs) (accumulate ys) := by
  show (xs ++ ys).foldl absorb ColAcc.empty = _
  rw [List.foldl_append]
  exact foldl_absorb_merge ys (accumulate xs)

theorem foldl_mergeAcc (l : List ColAcc) (a : ColAcc) :
    l.foldl mergeAcc a = mergeAcc a (mergeAll l) := by
  induction l generalizing a with
  | nil => simp [mergeAll, mergeAcc_empty_right]
  | cons b l ih =>
      have h1 : mergeAll (b :: l) = mergeAcc b (mergeAll l) := by
        show (b :: l).foldl mergeAcc ColAcc.empty = _
        rw [List.foldl_cons, ih (mergeAcc ColAcc.empty b), mergeAcc_empty_left]
      rw [List.foldl_cons, ih (mergeAcc a b), h1, mergeAcc_assoc]

/-- C1.  Accumulator mergeability: accumulating a whole column equals merging
the accumulators of any split into two contiguous parts; the merge is
commutative and associative; and for any chunking of the rows, folding the
per-chunk accumulators chunk by chunk (the pass-1 loop) recovers exactly the
whole-file accumulator, for every counter field. -/
theorem accumulator_mergeability :
    (∀ xs ys : List Cell, accumulate (xs ++ ys) = mergeAcc (accumulate xs) (accumulate ys))
    ∧ (∀ a b : ColAcc, mergeAcc a b = mergeAcc b a)
    ∧ (∀ a b c : ColAcc, mergeAcc (mergeAcc a b) c = mergeAcc a (mergeAcc b c))
    ∧ (∀ chunks : List (List Cell),
        mergeAll (chunks.map accumulate) = accumulate chunks.flatten) := by
  refine ⟨accumulate_append, mergeAcc_comm, mergeAcc_assoc, ?_⟩
  intro chunks
  induction chunks with
  | nil => rfl
  | cons c rest ih =>
      have h1 : mergeAll (accumulate c :: rest.map accumulate)
          = mergeAcc (accumulate c) (mergeAll (rest.map accumulate)) := by
        show (accumulate c :: rest.map accumulate).foldl mergeAcc ColAcc.empty = _
        rw [List.foldl_cons, foldl_mergeAcc, mergeAcc_empty_left]
      rw [List.map_cons, h1, ih, List.flatten_cons, accumulate_append]

theorem absorb_rowsSeen (a : ColAcc) (c : Cell) :
    (absorb a c).rowsSeen = a.rowsSeen + 1 := by
  by_cases h : isNullCell c = true <;> simp [absorb, h]

theorem absorb_infCount (a : ColAcc) (c : Cell) :
    (absorb a c).infCount = a.infCount + (if isInfCell c then 1 else 0) := by
  cases c <;> simp [absorb, isNullCell, isInfCell, toNumeric]

theorem foldl_absorb_rowsSeen (xs : List Cell) (a : ColAcc) :
    (xs.foldl absorb a).rowsSeen = a.rowsSeen + xs.length := by
  induction xs generalizing a with
  | nil => simp
  | cons c xs ih =>
      rw [List.foldl_cons, ih (absorb a c), absorb_rowsSeen, List.length_cons]
      omega

theorem accumulate_rowsSeen (xs : List Cell) :
    (accumulate xs).rowsSeen = xs.length := by
  show (xs.foldl absorb ColAcc.empty).rowsSeen = xs.length
  rw [foldl_absorb_rowsSeen]
  simp [ColAcc.empty]

theorem foldl_absorb_infCount (xs : List Cell) (a : ColAcc) :
    (xs.foldl absorb a).infCount = a.infCount + xs.countP isInfCell := by
  induction xs generalizing a with
  | nil => simp
  | cons c xs ih =>
      rw [List.foldl_cons, ih (absorb a c), absorb_infCount, List.countP_cons]
      by_cases h : isInfCell c = true <;> simp [h] <;> try omega

theorem accumulate_infCount (xs : List Cell) :
    (accumulate xs).infCount = xs.countP isInfCell := by
  show (xs.foldl absorb ColAcc.empty).infCount = xs.countP isInfCell
  rw [foldl_absorb_infCount]
  simp [ColAcc.empty]

theorem infCountsOf_flatten (chunks : List (List Cell)) :
    infCountsOf chunks = (accumulate chunks.flatten).infCount := by
  rw [accumulate_infCount, List.countP_flatten]
  simp [infCountsOf, accumulate_infCount]

theorem totalRowsOf_flatten (chunks : List (List Cell)) :
    totalRowsOf chunks = (accumulate chunks.flatten).rowsSeen := by
  rw [accumulate_rowsSeen, List.length_flatten]
  rfl

/-- C2 counterexample.  A one-row column whose single cell is missing: the
claimed formula `(null_count + infinite_count) / rows_seen` gives ratio 1,
strictly above the 0.30 threshold, yet the code does not flag the column —
`np.isinf` counts only infinities, so missing cells never contribute. -/
theorem inf_prune_null_counterexample :
    ¬ (infFlag [[Cell.null]] (3/10) = true ↔
       (((accumulate [Cell.null]).nullCount : ℚ) + ((accumulate [Cell.null]).infCount : ℚ))
         / ((accumulate [Cell.null]).rowsSeen : ℚ) > 3/10) := by
  have e1 : infCountsOf [[Cell.null]] = 0 := rfl
  have e2 : totalRowsOf [[Cell.null]] = 1 := rfl
  have e3 : accumulate [Cell.null] = ⟨0, 0, 1, 0, 1⟩ := rfl
  simp only [infFlag, e1, e2, e3, decide_eq_true_eq]
  norm_num

/-- C2 as amended: the Column Pruner flags a column exactly when
`infinite_count / rows_seen` is strictly greater than the threshold; missing
cells are not counted, and a column exactly at the threshold is kept. -/
theorem inf_prune_threshold (chunks : List (List Cell)) (threshold : ℚ)
    (hθ : 0 ≤ threshold) :
    (infFlag chunks threshold = true ↔
      ((accumulate chunks.flatten).infCount : ℚ) >
        threshold * ((accumulate chunks.flatten).rowsSeen : ℚ))
    ∧ (((accumulate chunks.flatten).infCount : ℚ) =
        threshold * ((accumulate chunks.flatten).rowsSeen : ℚ) →
      infFlag chunks threshold = false) := by
  have hif : infFlag chunks threshold = true ↔
      ((accumulate chunks.flatten).infCount : ℚ) >
        threshold * ((accumulate chunks.flatten).rowsSeen : ℚ) := by
    rw [infFlag, decide_eq_true_eq, infCountsOf_flatten, totalRowsOf_flatten]
    rcases Nat.eq_zero_or_pos (accumulate chunks.flatten).rowsSeen with h0 | hpos
    · have hle : (accumulate chunks.flatten).infCount ≤
          (accumulate chunks.flatten).rowsSeen := by
        rw [accumulate_infCount, accumulate_rowsSeen]
        exact List.countP_le_length _
      have hc0 : (accumulate chunks.flatten).infCount = 0 := by omega
      rw [h0, hc0]
      norm_num
      exact hθ
    · have hq : (0:ℚ) < ((accumulate chunks.flatten).rowsSeen : ℚ) := by
        exact_mod_cast hpos
      constructor
      · intro h
        have := (lt_div_iff₀ hq).mp h
        linarith
      · intro h
        rw [gt_iff_lt, lt_div_iff₀ hq]
        linarith
  refine ⟨hif, ?_⟩
  intro he
  rcases Bool.eq_false_or_eq_true (infFlag chunks threshold) with h | h
  · exact absurd (hif.mp h) (by rw [he]; exact lt_irrefl _)
  · exact h

/-- C2 witness: a three-row file split in two chunks with one infinite cell
(ratio 1/3 > 0.30) is flagged. -/
theorem inf_prune_threshold_witness :
    infFlag [[Cell.pinf], [Cell.num 1, Cell.null]] (3/10) = true :=
  ((inf_prune_threshold [[Cell.pinf], [Cell.num 1, Cell.null]] (3/10) (by norm_num)).1).mpr
    (by
      have e0 : ([[Cell.pinf], [Cell.num 1, Cell.null]] : List (List Cell)).flatten
          = [Cell.pinf, Cell.num 1, Cell.null] := rfl
      have e1 : (accumulate [Cell.pinf, Cell.num 1, Cell.null]).infCount = 1 := rfl
      have e2 : (accumulate [Cell.pinf, Cell.num 1, Cell.null]).rowsSeen = 3 := rfl
      rw [e0, e1, e2]
      norm_num)

/-- C3 counterexample.  The text cell "abc" coerces to NaN (a parse failure),
yet the never-negative mask does not flag it (`NaN < 0` is false in pandas),
and neither do the port and percentage masks of
`Check_For_Impossible_Values_Range.py` — contradicting the claim that every
active rule counts an unparseable cell as a violation. -/
theorem validator_unparseable_not_flagged :
    toNumeric (Cell.text "abc") = NumVal.nan
    ∧ negative_mask (Cell.text "abc") = false
    ∧ port_mask_range (Cell.text "abc") = false
    ∧ percentage_mask_range (Cell.text "abc") = false := by decide

/-- C3 as amended: a cell that fails to parse is counted as a violation by the
port and percentage rules of `Check_Dominance_Impossible_values.py` (the
`~between` form is fail-closed), but it is never flagged by the never-negative
rule of either variant, nor by the port and percentage rules of
`Check_For_Impossible_Values_Range.py` (the `< lo | > hi` form is fail-open). -/
theorem validator_parse_failure_behavior (c : Cell)
    (h : toNumeric c = NumVal.nan) :
    port_mask_between c = true ∧ percentage_mask_between c = true
    ∧ negative_mask c = false ∧ port_mask_range c = false
    ∧ percentage_mask_range c = false := by
  simp [port_mask_between, percentage_mask_between, negative_mask,
    port_mask_range, percentage_mask_range, betweenNum, ltNum, gtNum, h]

/-- C3 witness: the behavior at the unparseable cell "abc". -/
theorem validator_parse_failure_witness :
    toNumeric (Cell.text "abc") = NumVal.nan
    ∧ (port_mask_between (Cell.text "abc") = true
       ∧ percentage_mask_between (Cell.text "abc") = true
       ∧ negative_mask (Cell.text "abc") = false
       ∧ port_mask_range (Cell.text "abc") = false
       ∧ percentage_mask_range (Cell.text "abc") = false) :=
  ⟨rfl, validator_parse_failure_behavior (Cell.text "abc") rfl⟩

/-- C7 counterexample.  The fractional value 80.5 does not parse to an
integer, so the claim says the cell is invalid; the port rule accepts it
(`80.5` is between 0 and 65535), so "valid iff parses to an integer in
[0, 65535]" is false at this cell. -/
theorem port_rule_integer_counterexample :
    ¬ ((port_mask_between (Cell.num qEightyAndHalf) = false) ↔
       (port_parses_integer_in_range (Cell.num qEightyAndHalf) = true)) := by
  decide

/-- C7 as amended: a port cell passes the `~between` rule iff it parses to a
finite number (integral or not) in [0, 65535]; under the `< 0 | > 65535`
variant unparseable cells also pass; on the scenario column
[80, 443, 70000, -1] both variants flag exactly the absolute indices 2 and 3. -/
theorem port_rule_characterization :
    (∀ c : Cell, port_mask_between c = false ↔
       ∃ q : ℚ, toNumeric c = NumVal.fin q ∧ 0 ≤ q ∧ q ≤ 65535)
    ∧ (∀ c : Cell, port_mask_range c = false ↔
       (toNumeric c = NumVal.nan ∨
        ∃ q : ℚ, toNumeric c = NumVal.fin q ∧ 0 ≤ q ∧ q ≤ 65535))
    ∧ invalid_rows [Cell.num 80, Cell.num 443, Cell.num 70000, Cell.num (-1)]
        port_mask_between = [2, 3]
    ∧ invalid_rows [Cell.num 80, Cell.num 443, Cell.num 70000, Cell.num (-1)]
        port_mask_range = [2, 3] := by
  refine ⟨?_, ?_, by decide, by decide⟩
  · intro c
    cases c <;>
      simp [port_mask_between, betweenNum, toNumeric, decide_eq_true_eq]
  · intro c
    cases c <;>
      simp [port_mask_range, ltNum, gtNum, toNumeric, decide_eq_true_eq]

theorem accumulate_replicate_text (n : Nat) (s : String) :
    accumulate (List.replicate n (Cell.text s)) =
      ⟨Multiset.replicate n (Cell.text s), n, 0, 0, n⟩ := by
  induction n with
  | zero => rfl
  | succ n ih =>
      rw [List.replicate_succ]
      have h1 : accumulate (Cell.text s :: List.replicate n (Cell.text s))
          = mergeAcc (absorb ColAcc.empty (Cell.text s))
              (accumulate (List.replicate n (Cell.text s))) := by
        show (Cell.text s :: List.replicate n (Cell.text s)).foldl absorb ColAcc.empty = _
        rw [List.foldl_cons]
        exact foldl_absorb_merge _ _
      rw [h1, ih]
      simp [absorb, isNullCell, isInfCell, toNumeric, mergeAcc, ColAcc.empty,
        Multiset.replicate_succ, Nat.add_comm]

theorem scenarioB_accumulate :
    accumulate (List.replicate 960 (Cell.text "TCP") ++
        List.replicate 40 (Cell.text "UDP")) =
      ⟨Multiset.replicate 960 (Cell.text "TCP") + Multiset.replicate 40 (Cell.text "UDP"),
       1000, 0, 0, 1000⟩ := by
  rw [accumulate_append, accumulate_replicate_text, accumulate_replicate_text]
  rfl

theorem scenarioB_maxValueCount :
    maxValueCount (Multiset.replicate 960 (Cell.text "TCP") +
      Multiset.replicate 40 (Cell.text "UDP")) = 960 := by
  have h : Cell.text "TCP" ≠ Cell.text "UDP" := by decide
  rw [maxValueCount, Multiset.toFinset_add, Multiset.toFinset_replicate,
    Multiset.toFinset_replicate, if_neg (by decide : ¬(960 = 0)),
    if_neg (by decide : ¬(40 = 0))]
  rw [Finset.sup_union, Finset.sup_singleton, Finset.sup_singleton]
  rw [Multiset.count_add, Multiset.count_add, Multiset.count_replicate,
    Multiset.count_replicate, Multiset.count_replicate, Multiset.count_replicate]
  rw [if_pos rfl, if_pos rfl, if_neg h, if_neg (fun e => h e.symm)]
  decide

/-- C4.  The Dominance Bucketer: any ratio at least 1/2 (and at most 1, as a
ratio of a count over a larger total always is) matches exactly one of the six
ranges and is assigned that range's bucket; a ratio below 1/2 matches no range
and gets no bucket; a ratio of exactly 1 falls in "95-100%"; and the Scenario B
column (960 of 1000 non-null values equal) has ratio 96/100, bucketed
"95-100%". -/
theorem dominance_bucketer_total (r : ℚ) (hub : r ≤ 1) :
    ((1:ℚ)/2 ≤ r → ∃ t, matchingRanges r = [t] ∧ bucketOf r = some t.2.2)
    ∧ (r < 1/2 → matchingRanges r = [] ∧ bucketOf r = none)
    ∧ bucketOf 1 = some "95-100%"
    ∧ dominanceRatioOf (accumulate (List.replicate 960 (Cell.text "TCP") ++
        List.replicate 40 (Cell.text "UDP"))) = 96/100
    ∧ bucketOf (96/100) = some "95-100%" := by
  refine ⟨?_, ?_, ?_, ?_, ?_⟩
  · intro hlb
    rcases lt_or_le r (60/100) with h60 | h60
    · refine ⟨(50/100, 60/100, "50-60%"), ?_, ?_⟩ <;>
        simp [matchingRanges, bucketOf, DOMINANCE_RANGES, List.filter, List.find?,
          show ¬((95:ℚ)/100 ≤ r) from by linarith,
          show ¬((90:ℚ)/100 ≤ r) from by linarith,
          show ¬((80:ℚ)/100 ≤ r) from by linarith,
          show ¬((70:ℚ)/100 ≤ r) from by linarith,
          show ¬((60:ℚ)/100 ≤ r) from by linarith,
          show (50:ℚ)/100 ≤ r from by linarith,
          show r < 60/100 from h60]
    · rcases lt_or_le r (70/100) with h70 | h70
      · refine ⟨(60/100, 70/100, "60-70%"), ?_, ?_⟩ <;>
          simp [matchingRanges, bucketOf, DOMINANCE_RANGES, List.filter, List.find?,
            show ¬((95:ℚ)/100 ≤ r) from by linarith,
            show ¬((90:ℚ)/100 ≤ r) from by linarith,
            show ¬((80:ℚ)/100 ≤ r) from by linarith,
            show ¬((70:ℚ)/100 ≤ r) from by linarith,
            show (60:ℚ)/100 ≤ r from h60,
            show ¬(r < 60/100) from by linarith,
            show r < 70/100 from h70]
      · rcases lt_or_le r (80/100) with h80 | h80
        · refine ⟨(70/100, 80/100, "70-80%"), ?_, ?_⟩ <;>
            simp [matchingRanges, bucketOf, DOMINANCE_RANGES, List.filter, List.find?,
              show ¬((95:ℚ)/100 ≤ r) from by linarith,
              show ¬((90:ℚ)/100 ≤ r) from by linarith,
              show ¬((80:ℚ)/100 ≤ r) from by linarith,
              show (70:ℚ)/100 ≤ r from h70,
              show ¬(r < 60/100) from by linarith,
              show ¬(r < 70/100) from by linarith,
              show r < 80/100 from h80]
        · rcases lt_or_le r (90/100) with h90 | h90
          · refine ⟨(80/100, 90/100, "80-90%"), ?_, ?_⟩ <;>
              simp [matchingRanges, bucketOf, DOMINANCE_RANGES, List.filter, List.find?,
                show ¬((95:ℚ)/100 ≤ r) from by linarith,
                show ¬((90:ℚ)/100 ≤ r) from by linarith,
                show (80:ℚ)/100 ≤ r from h80,
                show ¬(r < 60/100) from by linarith,
                show ¬(r < 70/100) from by linarith,
                show ¬(r < 80/100) from by linarith,
                show r < 90/100 from h90]
          · rcases lt_or_le r (95/100) with h95 | h95
            · refine ⟨(90/100, 95/100, "90-95%"), ?_, ?_⟩ <;>
                simp [matchingRanges, bucketOf, DOMINANCE_RANGES, List.filter, List.find?,
                  show ¬((95:ℚ)/100 ≤ r) from by linarith,
                  show (90:ℚ)/100 ≤ r from h90,
                  show ¬(r < 60/100) from by linarith,
                  show ¬(r < 70/100) from by linarith,
                  show ¬(r < 80/100) from by linarith,
                  show ¬(r < 90/100) from by linarith,
                  show r < 95/100 from h95]
            · refine ⟨(95/100, 101/100, "95-100%"), ?_, ?_⟩ <;>
                simp [matchingRanges, bucketOf, DOMINANCE_RANGES, List.filter, List.find?,
                  show (95:ℚ)/100 ≤ r from h95,
                  show r < 101/100 from by linarith,
                  show ¬(r < 60/100) from by linarith,
                  show ¬(r < 70/100) from by linarith,
                  show ¬(r < 80/100) from by linarith,
                  show ¬(r < 90/100) from by linarith,
                  show ¬(r < 95/100) from by linarith]
  · intro hsmall
    constructor <;>
      simp [matchingRanges, bucketOf, DOMINANCE_RANGES, List.filter, List.find?,
        show ¬((95:ℚ)/100 ≤ r) from by linarith,
        show ¬((90:ℚ)/100 ≤ r) from by linarith,
        show ¬((80:ℚ)/100 ≤ r) from by linarith,
        show ¬((70:ℚ)/100 ≤ r) from by linarith,
        show ¬((60:ℚ)/100 ≤ r) from by linarith,
        show ¬((50:ℚ)/100 ≤ r) from by linarith]
  · simp [bucketOf, DOMINANCE_RANGES, List.find?,
      show (95:ℚ)/100 ≤ 1 from by norm_num,
      show (1:ℚ) < 101/100 from by norm_num]
  · rw [scenarioB_accumulate, dominanceRatioOf]
    show (maxValueCount (Multiset.replicate 960 (Cell.text "TCP") +
      Multiset.replicate 40 (Cell.text "UDP")) : ℚ) / ((1000:ℕ) : ℚ) = 96/100
    rw [scenarioB_maxValueCount]
    norm_num
  · simp [bucketOf, DOMINANCE_RANGES, List.find?,
      show (95:ℚ)/100 ≤ 96/100 from by norm_num,
      show (96:ℚ)/100 < 101/100 from by norm_num]

/-- C4 witness: the Scenario B ratio 96/100 satisfies the side conditions and
is bucketed "95-100%". -/
theorem dominance_bucketer_witness :
    (96:ℚ)/100 ≤ 1 ∧ bucketOf (96/100) = some "95-100%" :=
  ⟨by norm_num, (dominance_bucketer_total (96/100) (by norm_num)).2.2.2.2⟩

theorem insertSorted_length (q : ℚ) (xs : List ℚ) :
    (insertSorted q xs).length = xs.length + 1 := by
  induction xs with
  | nil => rfl
  | cons x xs ih => by_cases h : q ≤ x <;> simp [insertSorted, h, ih]

theorem sortQ_length (xs : List ℚ) : (sortQ xs).length = xs.length := by
  induction xs with
  | nil => rfl
  | cons x xs ih =>
      show (insertSorted x (sortQ xs)).length = xs.length + 1
      rw [insertSorted_length, ih]

theorem listMedian_isSome (xs : List ℚ) (h : xs ≠ []) :
    ∃ m, listMedian xs = some m := by
  have hl : ¬((sortQ xs).length = 0) := by
    rw [sortQ_length]
    simpa [List.length_eq_zero] using h
  by_cases hp : (sortQ xs).length % 2 = 1
  · exact ⟨(sortQ xs).getD ((sortQ xs).length / 2) 0, by simp [listMedian, hl, hp]⟩
  · exact ⟨((sortQ xs).getD ((sortQ xs).length / 2 - 1) 0 +
        (sortQ xs).getD ((sortQ xs).length / 2) 0) / 2, by simp [listMedian, hl, hp]⟩

theorem run_inf_imputation_at_inf (col : List Cell) (i : Nat)
    (h : isInfCell (col.getD i Cell.null) = true) :
    (run_inf_imputation_col col).getD i NumVal.nan = medianNum col := by
  rcases hc : col.get? i with _ | c
  · rw [List.getD_eq_getD_get?, hc] at h
    simp [isInfCell, toNumeric] at h
  · rw [List.getD_eq_getD_get?, hc] at h
    simp only [Option.getD_some] at h
    simp only [run_inf_imputation_col, List.getD_eq_getD_get?, List.get?_map, hc,
      Option.map_some, Option.getD_some]
    cases c <;> simp_all [isInfCell, toNumeric]

/-- C5.  Median imputation: whenever the column has at least one finite
numeric value, the substitution value is defined and equals the median of the
finite numeric subset (nulls and infinities excluded); every infinite cell of
the output is replaced by exactly that value; and on Scenario D,
[1.0, inf, 3.0, inf, 5.0], the median of {1, 3, 5} is 3 and both infinite
cells become 3. -/
theorem imputer_median_spec (col : List Cell) :
    (finiteVals col ≠ [] → ∃ m : ℚ, medianNum col = NumVal.fin m
        ∧ listMedian (finiteVals col) = some m)
    ∧ (∀ i : Nat, isInfCell (col.getD i Cell.null) = true →
        (run_inf_imputation_col col).getD i NumVal.nan = medianNum col)
    ∧ medianNum [Cell.num 1, Cell.pinf, Cell.num 3, Cell.pinf, Cell.num 5]
        = NumVal.fin 3
    ∧ run_inf_imputation_col [Cell.num 1, Cell.pinf, Cell.num 3, Cell.pinf, Cell.num 5]
        = [NumVal.fin 1, NumVal.fin 3, NumVal.fin 3, NumVal.fin 3, NumVal.fin 5] := by
  refine ⟨?_, fun i h => run_inf_imputation_at_inf col i h, by decide, by decide⟩
  intro hne
  rcases listMedian_isSome (finiteVals col) hne with ⟨m, hm⟩
  exact ⟨m, by rw [medianNum, hm], hm⟩

/-- C5 witness: Scenario D, reading off the imputed value of the infinite cell
at absolute index 1. -/
theorem imputer_median_witness :
    (run_inf_imputation_col
        [Cell.num 1, Cell.pinf, Cell.num 3, Cell.pinf, Cell.num 5]).getD 1 NumVal.nan
      = medianNum [Cell.num 1, Cell.pinf, Cell.num 3, Cell.pinf, Cell.num 5] :=
  (imputer_median_spec [Cell.num 1, Cell.pinf, Cell.num 3, Cell.pinf, Cell.num 5]).2.1
    1 (by decide)

/-- C6 counterexample.  A column whose cells are one +inf and one text value
has no finite numeric value; the computed median is NaN and the rewrite turns
both cells into NaN — so the column is modified, not "left untouched" as the
claim requires (its infinite cell is silently converted to a missing value). -/
theorem impute_undefined_counterexample :
    medianNum [Cell.pinf, Cell.text "x"] = NumVal.nan
    ∧ run_inf_imputation_col [Cell.pinf, Cell.text "x"] = [NumVal.nan, NumVal.nan]
    ∧ run_inf_imputation_col [Cell.pinf, Cell.text "x"]
        ≠ [Cell.pinf, Cell.text "x"].map toNumeric := by decide

/-- C6 as amended: when a column selected for imputation has no finite numeric
value, the substitution value is NaN (undefined median), and every infinite
cell becomes NaN — a missing value, never zero or any other concrete
substitute; the imputation is not skipped, so the column does not remain
untouched. -/
theorem impute_undefined_nan (col : List Cell) (h : finiteVals col = []) :
    medianNum col = NumVal.nan
    ∧ (∀ i : Nat, isInfCell (col.getD i Cell.null) = true →
        (run_inf_imputation_col col).getD i NumVal.nan = NumVal.nan) := by
  have hm : medianNum col = NumVal.nan := by
    simp [medianNum, listMedian, h, sortQ]
  refine ⟨hm, ?_⟩
  intro i hinf
  rw [run_inf_imputation_at_inf col i hinf, hm]

/-- C6 witness: the column [inf, null] has no finite value; its infinite cell
at index 0 becomes NaN. -/
theorem impute_undefined_witness :
    (run_inf_imputation_col [Cell.pinf, Cell.null]).getD 0 NumVal.nan = NumVal.nan :=
  (impute_undefined_nan [Cell.pinf, Cell.null] (by decide)).2 0 (by decide)

theorem writeLoop_false_no_header (flagged : List String) (l : List Chunk) :
    ∀ x ∈ writeLoop flagged l false, isHeaderLine x = false := by
  induction l with
  | nil =>
      intro x hx
      exact absurd hx (List.not_mem_nil x)
  | cons ch rest ih =>
      intro x hx
      have hx2 : x ∈ (dropChunkCols flagged ch).rows.map CsvLine.rowLine
          ++ writeLoop flagged rest false := hx
      rcases List.mem_append.mp hx2 with h1 | h1
      · rcases List.mem_map.mp h1 with ⟨r, _, rfl⟩
        rfl
      · exact ih x h1

theorem writeLoop_false_countP (flagged : List String) (l : List Chunk) :
    (writeLoop flagged l false).countP isHeaderLine = 0 := by
  rw [List.countP_eq_zero]
  intro x hx
  rw [writeLoop_false_no_header flagged l x hx]
  simp

/-- C8.  Rewrite-pass incremental write: over the whole pass-2 iteration the
header is emitted exactly once, as the very first line, by the first batch;
every line after it is a data row (later batches append without re-emitting
the header); columns are dropped by name; and `drop` with `errors="ignore"`
(what the source always passes) succeeds even when a flagged name is absent
from the batch. -/
theorem rewrite_pass_incremental (flagged : List String) (chunks : List Chunk)
    (h : chunks ≠ []) :
    (writePass flagged chunks).countP isHeaderLine = 1
    ∧ (writePass flagged chunks).head? =
        some (CsvLine.headerLine
          (dropChunkCols flagged (chunks.headD ⟨[], []⟩)).header)
    ∧ (∀ x ∈ (writePass flagged chunks).tail, isHeaderLine x = false)
    ∧ (∀ (labels : List String) (ch2 : Chunk),
        drop_columns labels true ch2 = Except.ok (dropChunkCols labels ch2)) := by
  rcases chunks with _ | ⟨ch, rest⟩
  · exact absurd rfl h
  · have hw : writePass flagged (ch :: rest)
        = CsvLine.headerLine (dropChunkCols flagged ch).header ::
            ((dropChunkCols flagged ch).rows.map CsvLine.rowLine
              ++ writeLoop flagged rest false) := rfl
    refine ⟨?_, ?_, ?_, ?_⟩
    · rw [hw, List.countP_cons, List.countP_append, writeLoop_false_countP]
      have hrows : ((dropChunkCols flagged ch).rows.map CsvLine.rowLine).countP
          isHeaderLine = 0 := by
        rw [List.countP_eq_zero]
        intro x hx
        rcases List.mem_map.mp hx with ⟨r, _, rfl⟩
        simp [isHeaderLine]
      rw [hrows]
      rfl
    · rw [hw]
      rfl
    · rw [hw]
      intro x hx
      rcases List.mem_append.mp hx with h1 | h1
      · rcases List.mem_map.mp h1 with ⟨r, _, rfl⟩
        rfl
      · exact writeLoop_false_no_header flagged rest x h1
    · intro labels ch2
      simp [drop_columns]

/-- C8 witness: two batches over header [a, b] with flagged names [b, zz]
(zz absent everywhere): the output contains exactly one header line. -/
theorem rewrite_pass_witness :
    (writePass ["b", "zz"]
        [⟨["a", "b"], [[Cell.num 1, Cell.num 2]]⟩,
         ⟨["a", "b"], [[Cell.num 3, Cell.num 4]]⟩]).countP isHeaderLine = 1 :=
  (rewrite_pass_incremental ["b", "zz"]
    [⟨["a", "b"], [[Cell.num 1, Cell.num 2]]⟩,
     ⟨["a", "b"], [[Cell.num 3, Cell.num 4]]⟩] (by decide)).1

/-- C9.  The engine never mutates automatically: an output file exists exactly
when the decision set is non-empty and the caller answered yes; an empty
decision set short-circuits to the no-action outcome before any confirmation;
and a declined confirmation never produces an output file. -/
theorem engine_requires_confirmation (header : List String)
    (chunks : List (List (List Cell))) (threshold : ℚ) (ans : String) :
    (outputWritten (run_inf_column_removal header chunks threshold ans) = true
      ↔ (columns_to_delete header chunks threshold ≠ [] ∧ answer_yes ans = true))
    ∧ (columns_to_delete header chunks threshold = [] →
        run_inf_column_removal header chunks threshold ans = RemovalOutcome.noAction)
    ∧ (answer_yes ans = false →
        outputWritten (run_inf_column_removal header chunks threshold ans) = false) := by
  by_cases hc : columns_to_delete header chunks threshold = []
  · simp [run_inf_column_removal, hc, outputWritten]
  · by_cases ha : answer_yes ans = true
    · simp [run_inf_column_removal, hc, ha, outputWritten]
    · simp [run_inf_column_removal, hc, ha, outputWritten]

/-- C9 witness: with columns to delete computed but the caller answering
"no", no output file is produced. -/
theorem engine_requires_confirmation_witness :
    outputWritten (run_inf_column_removal ["a"] [[[Cell.pinf]]] (3/10) "no") = false :=
  (engine_requires_confirmation ["a"] [[[Cell.pinf]]] (3/10) "no").2.2 (by decide)

theorem lookup_none (cols : List (String × List String)) (name : String)
    (h : name ∉ cols.map Prod.fst) :
    cols.find? (fun p => p.1 == name) = none := by
  rw [List.find?_eq_none]
  intro p hp he
  exact h (List.mem_map.mpr ⟨p, hp, beq_iff_eq.mp he⟩)

theorem find_append_none (f : (String × List String) → Bool)
    (l1 l2 : List (String × List String)) (h : l1.find? f = none) :
    (l1 ++ l2).find? f = l2.find? f := by
  induction l1 with
  | nil => rfl
  | cons p l1 ih =>
      cases hfp : f p with
      | true =>
          rw [List.find?_cons_of_pos _ hfp] at h
          exact absurd h (by simp)
      | false =>
          simp only [List.find?_cons, hfp] at h
          rw [List.cons_append]
          simp only [List.find?_cons, hfp]
          exact ih h

theorem find_label_rename (cols : List (String × List String))
    (h : "label" ∉ cols.map Prod.fst) :
    (cols.map (fun p => if p.1 == "Label" then ("label", p.2) else p)).find?
        (fun p => p.1 == "label")
      = (cols.find? (fun p => p.1 == "Label")).map (fun p => ("label", p.2)) := by
  induction cols with
  | nil => rfl
  | cons p cs ih =>
      have hne : p.1 ≠ "label" := by
        intro he
        exact h (List.mem_map.mpr ⟨p, List.mem_cons_self p cs, he⟩)
      have htail : "label" ∉ cs.map Prod.fst := by
        intro hm
        exact h (by simp [List.map_cons, List.mem_cons, hm])
      cases hp : (p.1 == "Label") with
      | true =>
          simp only [List.map_cons, hp, if_true]
          simp [List.find?_cons, hp]
      | false =>
          have hplabel : (p.1 == "label") = false := by
            simp [hne]
          simp only [List.map_cons, hp, Bool.false_eq_true, if_false]
          simp only [List.find?_cons, hp, hplabel]
          exact ih htail

theorem label_mem_rename (df : DF) (h : "Label" ∈ df.keys) :
    "label" ∈ (rename_Label df).keys := by
  rcases List.mem_map.mp h with ⟨p, hp, he⟩
  refine List.mem_map.mpr ⟨("label", p.2), ?_, rfl⟩
  refine List.mem_map.mpr ⟨p, hp, ?_⟩
  simp [he]

theorem breakdown_replicate (n : Nat) (mask : List Bool) (s : String)
    (hs : s ∈ breakdown_labels (List.replicate n "Unknown") mask) :
    s = "Unknown" := by
  rcases List.mem_map.mp hs with ⟨p, hp, rfl⟩
  have hz := List.mem_of_mem_filter hp
  exact List.eq_of_mem_replicate (List.of_mem_zip hz).1

/-- C10.  Label normalization before rule evaluation: the normalized table
always has a `label` column; when neither `Label` nor `label` was present, a
synthetic column of constant "Unknown" (one entry per row) is appended; when
`Label` was present without `label`, it is renamed to `label` with its values
intact; and in the no-label case every violation-mask breakdown attributes
every violation to "Unknown". -/
theorem label_normalization (df : DF) :
    ("label" ∈ (ensure_label df).keys)
    ∧ ("Label" ∉ df.keys → "label" ∉ df.keys →
        lookupCol (ensure_label df).cols "label"
          = some (List.replicate df.nrows "Unknown"))
    ∧ ("Label" ∈ df.keys → "label" ∉ df.keys →
        lookupCol (ensure_label df).cols "label" = lookupCol df.cols "Label")
    ∧ ("Label" ∉ df.keys → "label" ∉ df.keys →
        ∀ (mask : List Bool) (s : String),
          s ∈ breakdown_labels
              ((lookupCol (ensure_label df).cols "label").getD []) mask →
          s = "Unknown") := by
  have hb : "Label" ∉ df.keys → "label" ∉ df.keys →
      lookupCol (ensure_label df).cols "label"
        = some (List.replicate df.nrows "Unknown") := by
    intro hL hl
    have hdf1 : (if "Label" ∈ df.keys ∧ ¬ "label" ∈ df.keys
        then rename_Label df else df) = df := if_neg (by simp [hL])
    simp only [ensure_label, hdf1, if_pos hl]
    simp only [lookupCol]
    rw [find_append_none _ _ _ (lookup_none df.cols "label" hl),
      List.find?_cons_of_pos _ (by simp)]
    rfl
  refine ⟨?_, hb, ?_, ?_⟩
  · by_cases hl : "label" ∈ df.keys
    · have hdf1 : (if "Label" ∈ df.keys ∧ ¬ "label" ∈ df.keys
          then rename_Label df else df) = df := if_neg (by simp [hl])
      simp only [ensure_label, hdf1, if_neg (not_not_intro hl)]
      exact hl
    · by_cases hL : "Label" ∈ df.keys
      · have hdf1 : (if "Label" ∈ df.keys ∧ ¬ "label" ∈ df.keys
            then rename_Label df else df) = rename_Label df := if_pos ⟨hL, hl⟩
        have h2 : "label" ∈ (rename_Label df).keys := label_mem_rename df hL
        simp only [ensure_label, hdf1, if_neg (not_not_intro h2)]
        exact h2
      · have hdf1 : (if "Label" ∈ df.keys ∧ ¬ "label" ∈ df.keys
            then rename_Label df else df) = df := if_neg (by simp [hL])
        simp only [ensure_label, hdf1, if_pos hl]
        simp [DF.keys]
  · intro hL hl
    have hdf1 : (if "Label" ∈ df.keys ∧ ¬ "label" ∈ df.keys
        then rename_Label df else df) = rename_Label df := if_pos ⟨hL, hl⟩
    have h2 : "label" ∈ (rename_Label df).keys := label_mem_rename df hL
    simp only [ensure_label, hdf1, if_neg (not_not_intro h2)]
    simp only [lookupCol, rename_Label]
    rw [find_label_rename df.cols hl, Option.map_map]
    rfl
  · intro hL hl mask s hs
    rw [hb hL hl] at hs
    exact breakdown_replicate df.nrows mask s (by simpa using hs)

/-- C10 witness: a table with two rows and no label-like column gets the
synthetic constant column. -/
theorem label_normalization_witness :
    lookupCol (ensure_label ⟨[("a", ["x", "y"])], 2⟩).cols "label"
      = some (List.replicate 2 "Unknown") :=
  (label_normalization ⟨[("a", ["x", "y"])], 2⟩).2.1 (by decide) (by decide)
